import Mathlib

/-!
Verification development for `src/core/fonts_utils.js` (pdf.js font utilities).

The file shallowly embeds the two algorithmic cores of that source file:

* `type1FontGlyphMapping` (char-code to glyph-id resolution, together with its
  helper `recoverGlyphName` and the name normalizer `normalizeFontName`), and
* `compileType3Glyph` (bitmap-mask to vector-outline compilation).

External collaborators that the source imports from other modules
(`getEncoding`, `StandardEncoding`, `getGlyphsUnicode`, `getUnicodeForGlyph`)
are treated as parameters: the theorems quantify over them.  JavaScript
objects keyed by integers or strings are modelled as update-built functions
or association lists; JavaScript numbers occurring here are integers, so they
are modelled by `Nat`/`Int`; path coordinates are modelled by `ℚ`.
-/

set_option autoImplicit false
set_option maxRecDepth 4000

namespace FontsUtils

/-- A JavaScript value that can occur as an entry of `builtInEncoding` or as a
value of the char-code-to-glyph-id map: either a glyph name (string) or a
glyph id (number).  The source uses the same array both ways. -/
inductive JVal where
  | str (s : String)
  | num (n : Nat)
  deriving DecidableEq, Repr

/-- The fields of the font `properties` object read by
`type1FontGlyphMapping`.  `differences` is an integer-keyed object, modelled
as an association list (JavaScript objects cannot hold duplicate keys; the
theorems that depend on this carry a `Nodup` hypothesis). -/
structure FontProps where
  flags : Nat
  isInternalFont : Bool
  baseEncodingName : Option String
  differences : List (Nat × String)

/-- `FontFlags.Symbolic` from the source. -/
def FontFlagsSymbolic : Nat := 4

/-- JavaScript truthiness of an optional string (`undefined` and `""` are
falsy): used for the `properties.baseEncodingName` test. -/
def strTruthy : Option String → Bool
  | none => false
  | some s => !s.isEmpty

/-- Helper for `jsIndexOf`: scan with a running index. -/
def jsIndexOfAux (s : String) : List String → Int → Int
  | [], _ => -1
  | a :: t, i => if a = s then i else jsIndexOfAux s t (i + 1)

/-- `Array.prototype.indexOf` on an array of strings: index of the first
occurrence, `-1` when absent. -/
def jsIndexOf (l : List String) (s : String) : Int :=
  jsIndexOfAux s l 0

/-- `glyphNames.indexOf(baseEncoding[charCode])` where the entry may be a
hole (`undefined`) or a number: only a string entry can match. -/
def jsIndexOfVal (l : List String) : Option JVal → Int
  | some (.str s) => jsIndexOf l s
  | _ => -1

/-- `glyphId >= 0 ? glyphId : 0` from the source. -/
def toGid (g : Int) : Nat :=
  if 0 ≤ g then g.toNat else 0

/-- Property lookup on a string-keyed object modelled as an association
list: the value at the first matching key, `none` for `undefined`. -/
def lookupAL : List (String × Int) → String → Option Int
  | [], _ => none
  | p :: t, k => if p.1 = k then some p.2 else lookupAL t k

/-- The `for (const key in glyphsUnicodeMap)` reverse search of
`recoverGlyphName`: the first key (in enumeration order) whose value equals
`u`. -/
def firstKeyWithValue : List (String × Int) → Int → Option String
  | [], _ => none
  | p :: t, u => if p.2 = u then some p.1 else firstKeyWithValue t u

/-- `recoverGlyphName(name, glyphsUnicodeMap)` from the source, parameterized
by the external collaborator `getUnicodeForGlyph` (imported from
`unicode.js`, whose result the source only compares against `-1`).  The
`info(...)` diagnostic is a side effect outside the data model. -/
def recoverGlyphName (getUni : String → List (String × Int) → Int)
    (name : String) (glyphsUnicodeMap : List (String × Int)) : String :=
  if (lookupAL glyphsUnicodeMap name).isSome then name
  else if getUni name glyphsUnicodeMap ≠ -1 then
    (firstKeyWithValue glyphsUnicodeMap (getUni name glyphsUnicodeMap)).getD name
  else name

/-- The `charCodeToGlyphId` object under construction: an integer-keyed map
built by property assignments (later assignment to the same key wins). -/
def CharMap : Type := Nat → Option JVal

/-- `charCodeToGlyphId[charCode] = v`. -/
def mapSet (m : CharMap) (c : Nat) (v : JVal) : CharMap :=
  fun q => if q = c then some v else m q

/-- The empty `Object.create(null)` map. -/
def mapEmpty : CharMap := fun _ => none

/-- The base pass of `type1FontGlyphMapping` over a char-code-to-glyph-name
table (used with the named base encoding and with `StandardEncoding`):
for every `charCode < table.length`, assign
`glyphNames.indexOf(table[charCode])` clamped to `0` on a miss. -/
def baseNamesPass (glyphNames table : List String) (m : CharMap) : CharMap :=
  (List.range table.length).foldl
    (fun m c => mapSet m c (.num (toGid (jsIndexOf glyphNames (table.getD c ""))))) m

/-- The base pass of the `properties.isInternalFont` branch: the same name
translation applied to `builtInEncoding`, whose entries may be holes or
numbers (then `indexOf` misses and the id is `0`). -/
def baseInternalPass (glyphNames : List String) (builtInEncoding : List (Option JVal))
    (m : CharMap) : CharMap :=
  (List.range builtInEncoding.length).foldl
    (fun m c => mapSet m c (.num (toGid (jsIndexOfVal glyphNames (builtInEncoding.getD c none))))) m

/-- The base pass of the symbolic-font branch:
`for (charCode in builtInEncoding) charCodeToGlyphId[charCode] = builtInEncoding[charCode]`;
`for..in` on an array enumerates exactly the non-hole indices, in ascending
order, and the entries are copied through unchanged. -/
def baseSymbolicPass (builtInEncoding : List (Option JVal)) (m : CharMap) : CharMap :=
  (List.range builtInEncoding.length).foldl
    (fun m c =>
      match builtInEncoding.getD c none with
      | some v => mapSet m c v
      | none => m) m

/-- The glyph id derived from one `differences` entry: `glyphNames.indexOf`
of the difference name; when that is `-1`, retry with
`recoverGlyphName`'s result (only when it differs from the original name);
finally clamp `-1` to `0`. -/
def diffGlyphId (glyphNames : List String) (glyphsUnicodeMap : List (String × Int))
    (getUni : String → List (String × Int) → Int) (glyphName : String) : Nat :=
  toGid
    (if jsIndexOf glyphNames glyphName = -1 then
      (if recoverGlyphName getUni glyphName glyphsUnicodeMap ≠ glyphName then
        jsIndexOf glyphNames (recoverGlyphName getUni glyphName glyphsUnicodeMap)
      else jsIndexOf glyphNames glyphName)
    else jsIndexOf glyphNames glyphName)

/-- The final pass of `type1FontGlyphMapping`: merge in the `differences`
overrides.  (The source builds `glyphsUnicodeMap` lazily via
`getGlyphsUnicode()`; the map is passed in directly here, laziness being a
performance detail with no observable effect on the result.) -/
def applyDifferences (glyphNames : List String) (glyphsUnicodeMap : List (String × Int))
    (getUni : String → List (String × Int) → Int)
    (diffs : List (Nat × String)) (m : CharMap) : CharMap :=
  diffs.foldl
    (fun m cn => mapSet m cn.1 (.num (diffGlyphId glyphNames glyphsUnicodeMap getUni cn.2))) m

/-- `type1FontGlyphMapping(properties, builtInEncoding, glyphNames)` from the
source, parameterized by the external collaborators `getEncoding` /
`StandardEncoding` (from `encodings.js`) and the glyph-name/Unicode data
(from `glyphlist.js` / `unicode.js`). -/
def type1FontGlyphMapping (getEnc : String → List String) (stdEnc : List String)
    (glyphsUnicodeMap : List (String × Int)) (getUni : String → List (String × Int) → Int)
    (properties : FontProps) (builtInEncoding : List (Option JVal))
    (glyphNames : List String) : CharMap :=
  applyDifferences glyphNames glyphsUnicodeMap getUni properties.differences
    (if properties.isInternalFont then
      baseInternalPass glyphNames builtInEncoding mapEmpty
    else if strTruthy properties.baseEncodingName then
      baseNamesPass glyphNames (getEnc (properties.baseEncodingName.getD "")) mapEmpty
    else if properties.flags &&& FontFlagsSymbolic ≠ 0 then
      baseSymbolicPass builtInEncoding mapEmpty
    else
      baseNamesPass glyphNames stdEnc mapEmpty)

/-- Direct description of the base table built by the `isInternalFont`
branch: for `charCode < builtInEncoding.length`, the entry translated
through `glyphNames` (a miss gives id 0); no other char code is assigned. -/
def internalBaseVal (builtInEncoding : List (Option JVal)) (glyphNames : List String)
    (c : Nat) : Option JVal :=
  if c < builtInEncoding.length then
    some (.num (toGid (jsIndexOfVal glyphNames (builtInEncoding.getD c none))))
  else none

/-- Direct description of the base table built from a char-code-to-name
table (the `baseEncodingName` and `StandardEncoding` branches). -/
def namedBaseVal (glyphNames table : List String) (c : Nat) : Option JVal :=
  if c < table.length then some (.num (toGid (jsIndexOf glyphNames (table.getD c ""))))
  else none

/-- Direct description of the base table built by the symbolic-font branch:
the `builtInEncoding` entry itself (holes and out-of-range codes are
unassigned). -/
def symbolicBaseVal (builtInEncoding : List (Option JVal)) (c : Nat) : Option JVal :=
  builtInEncoding.getD c none

/-- The character class `\s` of a JavaScript regular expression
(ECMA-262 WhiteSpace ∪ LineTerminator). -/
def isJsWhitespace (ch : Char) : Bool :=
  ch.toNat = 9 || ch.toNat = 10 || ch.toNat = 11 || ch.toNat = 12 || ch.toNat = 13 ||
  ch.toNat = 32 || ch.toNat = 0xa0 || ch.toNat = 0x1680 ||
  (0x2000 ≤ ch.toNat && ch.toNat ≤ 0x200a) ||
  ch.toNat = 0x2028 || ch.toNat = 0x2029 || ch.toNat = 0x202f || ch.toNat = 0x205f ||
  ch.toNat = 0x3000 || ch.toNat = 0xfeff

/-- `normalizeFontName(name)` from the source:
`name.replaceAll(/[,_]/g, "-").replaceAll(/\s/g, "")` — both patterns are
single-character classes, so the two passes are a character map followed by a
character filter. -/
def normalizeFontName (name : String) : String :=
  (((name.toList.map (fun ch => if ch = ',' ∨ ch = '_' then '-' else ch))).filter
    (fun ch => !isJsWhitespace ch)).asString

/-- The transform that claim C8 (and spec §4.4) describes: commas,
underscores and whitespace are stripped (deleted).  Stated from the spec's
words, for comparison with `normalizeFontName`. -/
def stripSpecC8 (name : String) : String :=
  (name.toList.filter (fun ch => !(ch = ',' || ch = '_' || isJsWhitespace ch))).asString

/-! ### compileType3Glyph

The bitmap-glyph compiler.  `Uint8Array` buffers are modelled as update-built
functions `Nat → Nat` (a typed array is zero-initialized, and, on the domains
exercised below, every read is of a previously written or zero cell).  The
`pathBuf` of flat `[op, x, y, ...]` triples is modelled as a list of path
commands; the `DrawOPS.moveTo` / `DrawOPS.lineTo` opcode constants from
`shared/util.js` become the two constructors.  The loops of the tracing phase
are not structurally recursive (the source relies on geometric invariants for
termination), so they take an explicit fuel; exhausting fuel models
non-termination of the corresponding JavaScript loop and is distinguished
from every returned value. -/

/-- A byte buffer / points grid: zero-initialized, updated pointwise. -/
def Buf : Type := Nat → Nat

/-- The all-zero buffer (`new Uint8Array(n)`). -/
def bufZero : Buf := fun _ => 0

/-- `buf[k] = v`. -/
def bufSet (b : Buf) (k v : Nat) : Buf :=
  fun q => if q = k then v else b q

/-- `const lineSize = (width + 7) & ~7;` — `width` rounded up to a multiple
of eight. -/
def lineSize (width : Nat) : Nat :=
  (width + 7) / 8 * 8

/-- One write of the unpacker's inner loop:
`data[pos] = elem & mask ? 0 : 255` (note: a set source bit yields byte `0`,
a clear bit yields `255`). -/
def unpackWrite (elem mask pos : Nat) (data : Buf) : Buf :=
  bufSet data pos (if elem &&& mask ≠ 0 then 0 else 255)

/-- The inner `let mask = 128; while (mask > 0) { data[pos++] = elem & mask
? 0 : 255; mask >>= 1; }` loop of the unpacker: starting from `mask = 128`
and halving, it runs exactly eight iterations with masks
`128, 64, 32, 16, 8, 4, 2, 1`, unrolled here. -/
def unpackByte (elem pos : Nat) (data : Buf) : Buf × Nat :=
  (unpackWrite elem 1 (pos + 7)
    (unpackWrite elem 2 (pos + 6)
      (unpackWrite elem 4 (pos + 5)
        (unpackWrite elem 8 (pos + 4)
          (unpackWrite elem 16 (pos + 3)
            (unpackWrite elem 32 (pos + 2)
              (unpackWrite elem 64 (pos + 1)
                (unpackWrite elem 128 pos data))))))), pos + 8)

/-- `for (const elem of img) { ... }` — expand the packed input bytes into
the flat `data` grid. -/
def unpack (img : List Nat) : Buf :=
  (img.foldl (fun dp elem => unpackByte elem dp.2 dp.1) (bufZero, 0)).1

/-- The transform claim C4 (and spec §3) describes for a single pixel byte:
`255` for a set source bit (1 = ink), `0` for a clear bit.  Stated from the
spec's words, for comparison with `unpack`. -/
def unpackSpecC4 (img : List Nat) (k : Nat) : Nat :=
  if img.getD (k / 8) 0 &&& (128 >>> (k % 8)) ≠ 0 then 255 else 0

/-- The 16-entry `POINT_TYPES` lookup table. -/
def pointType (sum : Nat) : Nat :=
  [0, 2, 4, 0, 1, 0, 5, 4, 8, 10, 0, 8, 0, 2, 1, 0].getD sum 0

/-- Classification state: the `points` grid and the running `count` of
non-zero classifications.  `count` is an `Int` because the tracing phase
later decrements it (`--count`), and JavaScript numbers do not truncate at
zero. -/
structure ClsState where
  pts : Buf
  count : Int

/-- Record one classified point: `points[j] = v; ++count;`. -/
def setPt (s : ClsState) (j v : Nat) : ClsState :=
  { pts := bufSet s.pts j v, count := s.count + 1 }

/-- The top-row pass of the classifier (the code between `count = 0` and the
`for (i = 1; ...)` loop): left corner, interior sign changes, right corner of
grid row 0. -/
def topRowPass (data : Buf) (width : Nat) : ClsState :=
  let s0 : ClsState := { pts := bufZero, count := 0 }
  let s1 := if data 0 ≠ 0 then setPt s0 0 1 else s0
  let s2 := (List.range' 1 (width - 1)).foldl
    (fun s j => if data (j - 1) ≠ data j then setPt s j (if data (j - 1) ≠ 0 then 2 else 1) else s)
    s1
  if data (width - 1) ≠ 0 then setPt s2 width 2 else s2

/-- One iteration of the middle-row classifier (`for (i = 1; i < height; i++)`
body, without the `count > POINT_TO_PROCESS_LIMIT` check): west edge, the
rolling-`sum` interior loop through `POINT_TYPES`, east edge of grid row `i`. -/
def middleRowPass (data : Buf) (width w1 ls i : Nat) (s : ClsState) : ClsState :=
  let pos0 := i * ls
  let j0 := i * w1
  let s1 :=
    if data (pos0 - ls) ≠ data pos0 then setPt s j0 (if data pos0 ≠ 0 then 1 else 8) else s
  let sum0 := (if data pos0 ≠ 0 then 4 else 0) + (if data (pos0 - ls) ≠ 0 then 8 else 0)
  let s2 := ((List.range' 1 (width - 1)).foldl
    (fun ss j =>
      let pos := pos0 + (j - 1)
      let sum := (ss.2 >>> 2) + (if data (pos + 1) ≠ 0 then 4 else 0) +
        (if data (pos + 1 - ls) ≠ 0 then 8 else 0)
      (if pointType sum ≠ 0 then setPt ss.1 (j0 + j) (pointType sum) else ss.1, sum))
    (s1, sum0)).1
  let posE := pos0 + (width - 1)
  if data (posE - ls) ≠ data posE then setPt s2 (j0 + width) (if data posE ≠ 0 then 2 else 4) else s2

/-- The bottom-row pass of the classifier (the code after the middle loop,
without its final limit check): left corner, sign changes, right corner of
grid row `height`. -/
def bottomRowPass (data : Buf) (width w1 ls height : Nat) (s : ClsState) : ClsState :=
  let pos0 := ls * (height - 1)
  let j0 := height * w1
  let s1 := if data pos0 ≠ 0 then setPt s j0 8 else s
  let s2 := (List.range' 1 (width - 1)).foldl
    (fun s j =>
      let pos := pos0 + (j - 1)
      if data pos ≠ data (pos + 1) then setPt s (j0 + j) (if data pos ≠ 0 then 4 else 8) else s)
    s1
  if data (pos0 + (width - 1)) ≠ 0 then setPt s2 (j0 + width) 4 else s2

/-- The whole classification run without the early `return null` checks:
used to state what the running count reaches. -/
def classifyTotal (data : Buf) (width w1 ls height : Nat) : ClsState :=
  bottomRowPass data width w1 ls height
    ((List.range' 1 (height - 1)).foldl (fun s i => middleRowPass data width w1 ls i s)
      (topRowPass data width))

/-- `POINT_TO_PROCESS_LIMIT`. -/
def pointLimit : Int := 1000

/-- The classification as executed: after each middle row, and once after the
bottom row, `if (count > POINT_TO_PROCESS_LIMIT) return null;` — `none` is
that `return null`. -/
def classifyChecked (data : Buf) (width w1 ls height : Nat) : Option ClsState :=
  ((List.range' 1 (height - 1)).foldl
    (fun os i =>
      os.bind (fun s =>
        if (middleRowPass data width w1 ls i s).count > pointLimit then none
        else some (middleRowPass data width w1 ls i s)))
    (some (topRowPass data width))).bind
    (fun s =>
      if (bottomRowPass data width w1 ls height s).count > pointLimit then none
      else some (bottomRowPass data width w1 ls height s))

/-- An affine matrix with the `DOMMatrix` fields read by the source.
Modelled from the spec: `DOMMatrix` is the browser API (Geometry Interfaces)
used by the source for the pixel-to-unit-square transform; only `scaleSelf`,
`translateSelf` and the `a, b, c, d, e, f` accessors are consulted. -/
structure MatrixQ where
  a : ℚ
  b : ℚ
  c : ℚ
  d : ℚ
  e : ℚ
  f : ℚ

/-- `new DOMMatrix()`. -/
def MatrixQ.new : MatrixQ := ⟨1, 0, 0, 1, 0, 0⟩

/-- `m.scaleSelf(sx, sy)`: post-multiply by a scale. -/
def MatrixQ.scaleSelf (m : MatrixQ) (sx sy : ℚ) : MatrixQ :=
  ⟨m.a * sx, m.b * sx, m.c * sy, m.d * sy, m.e, m.f⟩

/-- `m.translateSelf(tx, ty)`: post-multiply by a translation. -/
def MatrixQ.translateSelf (m : MatrixQ) (tx ty : ℚ) : MatrixQ :=
  ⟨m.a, m.b, m.c, m.d, m.a * tx + m.c * ty + m.e, m.b * tx + m.d * ty + m.f⟩

/-- `new DOMMatrix().scaleSelf(1 / width, -1 / height).translateSelf(0, -height)`
— the source's pixel-to-unit-square transform ("the path shall be painted in
[0..1]x[0..1] space"). -/
def glyphMatrix (width height : Nat) : MatrixQ :=
  (MatrixQ.new.scaleSelf (1 / (width : ℚ)) (-(1 / (height : ℚ)))).translateSelf
    0 (-(height : ℚ))

/-- A path command: `DrawOPS.moveTo, x, y` or `DrawOPS.lineTo, x, y` pushed
onto `pathBuf`. -/
inductive Cmd where
  | moveTo (x y : ℚ)
  | lineTo (x y : ℚ)
  deriving DecidableEq, Repr

/-- The compiled result `[OPS.rawFillPath, [pathBuf], [0, 0, width, height]]`
minus the constant opcode. -/
structure Outline where
  path : List Cmd
  bbox : List ℚ
  deriving DecidableEq, Repr

/-- The point of grid cell `p`: `x = p % width1; y = (p / width1) | 0`
pushed through `(a*x + c*y + e, b*x + d*y + f)`. -/
def coordOf (M : MatrixQ) (w1 p : Nat) : ℚ × ℚ :=
  let x : ℚ := (p % w1 : Nat)
  let y : ℚ := (p / w1 : Nat)
  (M.a * x + M.c * y + M.e, M.b * x + M.d * y + M.f)

/-- `points[p]` for a stepping index that may leave the grid: out-of-bounds
(including negative) reads of a typed array give `undefined`, which the
source only ever tests for truthiness, so they read as `0`. -/
def readPts (pts : Buf) (size : Nat) (p : Int) : Nat :=
  if 0 ≤ p ∧ p < (size : Int) then pts p.toNat else 0

/-- `const steps = new Int32Array([0, width1, -1, 0, -width1, 0, 0, 0, 1])`;
an index past the end reads `undefined` (`none`), which would poison `p`
with `NaN` and hang the walk. -/
def stepOf (w1 : Nat) (type : Nat) : Option Int :=
  ([0, (w1 : Int), -1, 0, -(w1 : Int), 0, 0, 0, 1] : List Int).get? type

/-- `do { p += step; } while (!points[p]);` — the first `p + k*step`
(`k ≥ 1`) holding a non-zero point.  Fuel exhaustion models the JavaScript
loop running forever (it can only fail to find a point by walking off the
grid, where every read is falsy). -/
def findNext (pts : Buf) (size : Nat) : Nat → Int → Int → Option Int
  | 0, _, _ => none
  | fuel + 1, p, step =>
    let q := p + step
    if readPts pts size q ≠ 0 then some q else findNext pts size fuel q step

/-- The update performed at the point hit by one walk step: given the
point's own value `pp` and the incoming direction `type`, the pair of the
new direction and the value stored back into the grid.  A plain boundary
point (`pp` not 5 or 10) sets the direction to `pp` and is fully consumed
(stored value 0); at a crossing the direction is
`pp & ((0x33 * type) >> 4)` and only the direction just taken is cleared:
`points[p] &= (type >> 2) | (type << 2)`. -/
def crossTypes (pp type : Nat) : Nat × Nat :=
  if pp ≠ 5 ∧ pp ≠ 10 then (pp, 0)
  else (pp &&& ((0x33 * type) >>> 4),
    pp &&& (((pp &&& ((0x33 * type) >>> 4)) >>> 2) ||| ((pp &&& ((0x33 * type) >>> 4)) <<< 2)))

/-- The `do { ... } while (p0 !== p)` contour walk.  Returns the updated
grid and count together with the list of vertices visited (each of which the
source pushes as a `lineTo`; the `--count` decrement fires exactly when the
stored value becomes 0).  `none` models a walk that never returns to `p0`
within the given fuel. -/
def walk (w1 size : Nat) (M : MatrixQ) (p0 : Nat) :
    Nat → Buf → Int → Nat → Int → Option (Buf × Int × List (ℚ × ℚ))
  | 0, _, _, _, _ => none
  | fuel + 1, pts, count, type, p =>
    match stepOf w1 type with
    | none => none
    | some step =>
      match findNext pts size (size + 2) p step with
      | none => none
      | some q =>
        if q.toNat = p0 then
          some (bufSet pts q.toNat (crossTypes (readPts pts size q) type).2,
            (if (crossTypes (readPts pts size q) type).2 = 0 then count - 1 else count),
            [coordOf M w1 q.toNat])
        else
          match walk w1 size M p0 fuel
              (bufSet pts q.toNat (crossTypes (readPts pts size q) type).2)
              (if (crossTypes (readPts pts size q) type).2 = 0 then count - 1 else count)
              (crossTypes (readPts pts size q) type).1 q with
          | none => none
          | some (ptsF, countF, vs) => some (ptsF, countF, coordOf M w1 q.toNat :: vs)

/-- `while (p < end && !points[p]) p++;` — the first non-zero point of grid
row cells `start, ..., start + width - 1`, if any. -/
def scanRow (pts : Buf) (start : Nat) : Nat → Option Nat
  | 0 => none
  | n + 1 => if pts start ≠ 0 then some start else scanRow pts (start + 1) n

/-- The outline-building loop `for (i = 0; count && i <= height; i++)`
(with its trailing `--i` after a traced contour).  Produces the path-command
list; `none` models non-termination (of this loop or of a contour walk). -/
def outerLoop (w1 size width height : Nat) (M : MatrixQ) :
    Nat → Buf → Int → Nat → Option (List Cmd)
  | 0, _, _, _ => none
  | fuel + 1, pts, count, i =>
    if count = 0 ∨ i > height then some []
    else
      match scanRow pts (i * w1) width with
      | none => outerLoop w1 size width height M fuel pts count (i + 1)
      | some p =>
        match walk w1 size M p (fuel + 1) pts count (pts p) (p : Int) with
        | none => none
        | some (pts2, count2, vs) =>
          match outerLoop w1 size width height M fuel pts2 count2 i with
          | none => none
          | some rest =>
            some (Cmd.moveTo (coordOf M w1 p).1 (coordOf M w1 p).2 ::
              (vs.map (fun v => Cmd.lineTo v.1 v.2) ++ rest))

/-- `MAX_SIZE_TO_COMPILE`. -/
def maxSizeToCompile : Nat := 1000

/-- `compileType3Glyph({data: img, width, height})` from the source, with an
explicit fuel for the tracing phase.  Results: `some none` is the source's
`return null`; `some (some o)` is a compiled outline; `none` means the
tracing loops did not finish within `fuel` (the source would still be
running). -/
def compileType3Glyph (fuel : Nat) (img : List Nat) (width height : Nat) :
    Option (Option Outline) :=
  if width > maxSizeToCompile ∨ height > maxSizeToCompile then some none
  else
    let ls := lineSize width
    let w1 := width + 1
    let data := unpack img
    match classifyChecked data width w1 ls height with
    | none => some none
    | some s =>
      match outerLoop w1 (w1 * (height + 1)) width height (glyphMatrix width height) fuel
          s.pts s.count 0 with
      | none => none
      | some cmds => some (some { path := cmds, bbox := [0, 0, (width : ℚ), (height : ℚ)] })

/-- Closedness of a command list: a sequence of contours, each a `moveTo`
followed by `lineTo`s whose last vertex equals the `moveTo` vertex. -/
inductive ClosedContours : List Cmd → Prop where
  | nil : ClosedContours []
  | contour (x y : ℚ) (vs : List (ℚ × ℚ)) (rest : List Cmd) :
      vs ≠ [] → vs.getLast? = some (x, y) → ClosedContours rest →
      ClosedContours (Cmd.moveTo x y :: (vs.map (fun v => Cmd.lineTo v.1 v.2) ++ rest))

/-! ## Helper lemmas: map construction -/

theorem mapSet_apply (m : CharMap) (c : Nat) (v : JVal) (q : Nat) :
    mapSet m c v q = if q = c then some v else m q := rfl

theorem foldRange_mapSet_apply (f : Nat → JVal) (n : Nat) (m : CharMap) (c : Nat) :
    ((List.range n).foldl (fun m k => mapSet m k (f k)) m) c =
      if c < n then some (f c) else m c := by
  induction n with
  | zero => simp
  | succ n ih =>
    rw [List.range_succ, List.foldl_append]
    simp only [List.foldl_cons, List.foldl_nil]
    rw [mapSet_apply]
    by_cases hc : c = n
    · subst hc; simp
    · rw [if_neg hc, ih]
      rcases Nat.lt_trichotomy c n with h | h | h
      · rw [if_pos h, if_pos (by omega)]
      · exact absurd h hc
      · rw [if_neg (by omega), if_neg (by omega)]

theorem foldRange_optSet_apply (g : Nat → Option JVal) (n : Nat) (m : CharMap) (c : Nat) :
    ((List.range n).foldl
        (fun m k => match g k with | some v => mapSet m k v | none => m) m) c =
      if c < n ∧ (g c).isSome then g c else m c := by
  induction n with
  | zero => simp
  | succ n ih =>
    rw [List.range_succ, List.foldl_append]
    simp only [List.foldl_cons, List.foldl_nil]
    by_cases hc : c = n
    · subst hc
      cases hg : g c with
      | none => simp [ih, hg]
      | some v => simp [mapSet_apply, hg]
    · have hstep :
          (match g n with
            | some v => mapSet ((List.range n).foldl
                (fun m k => match g k with | some v => mapSet m k v | none => m) m) n v
            | none => (List.range n).foldl
                (fun m k => match g k with | some v => mapSet m k v | none => m) m) c =
          ((List.range n).foldl
            (fun m k => match g k with | some v => mapSet m k v | none => m) m) c := by
        cases g n with
        | none => rfl
        | some v =>
          simp only [mapSet_apply]
          rw [if_neg hc]
      rw [hstep, ih]
      rcases Nat.lt_trichotomy c n with h | h | h
      · by_cases hs : (g c).isSome <;> simp [h, hs, Nat.lt_succ_of_lt h]
      · exact absurd h hc
      · have h1 : ¬c < n := by omega
        have h2 : ¬c < n + 1 := by omega
        simp [h1, h2]

theorem foldPairs_mapSet_apply (vf : Nat × String → JVal) (l : List (Nat × String))
    (m : CharMap) (c : Nat) :
    (l.foldl (fun m cn => mapSet m cn.1 (vf cn)) m) c =
      match l.reverse.find? (fun cn => cn.1 == c) with
      | some cn => some (vf cn)
      | none => m c := by
  induction l using List.reverseRecOn with
  | nil => simp
  | append_singleton l a ih =>
    rw [List.foldl_append]
    simp only [List.foldl_cons, List.foldl_nil, List.reverse_append, List.reverse_singleton,
      List.singleton_append]
    rw [mapSet_apply]
    by_cases hc : c = a.1
    · rw [if_pos hc, List.find?_cons_of_pos _ (by simp [hc])]
    · rw [if_neg hc, List.find?_cons_of_neg _
        (by simp only [beq_iff_eq]; exact fun h => hc h.symm), ih]

theorem find?_key_eq_of_nodup_mem (l : List (Nat × String)) (c : Nat) (s : String)
    (hnd : (l.map Prod.fst).Nodup) (hm : (c, s) ∈ l) :
    l.find? (fun cn => cn.1 == c) = some (c, s) := by
  induction l with
  | nil => cases hm
  | cons a t ih =>
    rw [List.map_cons, List.nodup_cons] at hnd
    rcases List.mem_cons.mp hm with h | h
    · subst h
      exact List.find?_cons_of_pos _ (by simp)
    · have hne : a.1 ≠ c := by
        intro he
        exact hnd.1 (he ▸ List.mem_map_of_mem Prod.fst h)
      rw [List.find?_cons_of_neg _ (by simpa using hne)]
      exact ih hnd.2 h

theorem find?_key_eq_none_of_not_mem (l : List (Nat × String)) (c : Nat)
    (hm : ∀ n, (c, n) ∉ l) :
    l.find? (fun cn => cn.1 == c) = none := by
  rw [List.find?_eq_none]
  intro x hx hpx
  have hx1 : x.1 = c := by simpa using hpx
  exact hm x.2 (by rw [← hx1]; exact hx)

/-! ## Helper lemmas: indexOf bounds -/

theorem jsIndexOfAux_spec (s : String) (l : List String) (i : Int) :
    jsIndexOfAux s l i = -1 ∨
      (i ≤ jsIndexOfAux s l i ∧ jsIndexOfAux s l i < i + l.length) := by
  induction l generalizing i with
  | nil => exact Or.inl rfl
  | cons a t ih =>
    rw [jsIndexOfAux]
    by_cases ha : a = s
    · rw [if_pos ha]
      exact Or.inr ⟨le_refl i, by simp⟩
    · rw [if_neg ha]
      rcases ih (i + 1) with h | h
      · exact Or.inl h
      · refine Or.inr ⟨by omega, ?_⟩
        have := h.2
        simp only [List.length_cons]
        push_cast at this ⊢
        omega

theorem jsIndexOf_spec (l : List String) (s : String) :
    jsIndexOf l s = -1 ∨ (0 ≤ jsIndexOf l s ∧ jsIndexOf l s < l.length) := by
  simpa using jsIndexOfAux_spec s l 0

theorem jsIndexOfVal_spec (l : List String) (v : Option JVal) :
    jsIndexOfVal l v = -1 ∨ (0 ≤ jsIndexOfVal l v ∧ jsIndexOfVal l v < l.length) := by
  match v with
  | none => exact Or.inl rfl
  | some (.num _) => exact Or.inl rfl
  | some (.str s) => exact jsIndexOf_spec l s

theorem toGid_lt (g : Int) (n : Nat) (hn : 0 < n)
    (h : g = -1 ∨ (0 ≤ g ∧ g < n)) : toGid g < n := by
  unfold toGid
  rcases h with h | h
  · subst h; simpa using hn
  · rw [if_pos h.1]
    omega

theorem diffGlyphId_lt (glyphNames : List String) (gUni : List (String × Int))
    (getUni : String → List (String × Int) → Int) (s : String)
    (hne : 0 < glyphNames.length) :
    diffGlyphId glyphNames gUni getUni s < glyphNames.length := by
  unfold diffGlyphId
  apply toGid_lt _ _ hne
  split
  · split
    · exact jsIndexOf_spec glyphNames _
    · exact Or.inl (by assumption)
  · rcases jsIndexOf_spec glyphNames s with h | h
    · exact Or.inl h
    · exact Or.inr h

/-! ## Claim theorems: encoding resolution -/

/-- C10 (confirmed): `recoverGlyphName(name, glyphsUnicodeMap)` returns
either the input name itself, or the first key (in enumeration order) of
`glyphsUnicodeMap` whose value equals the codepoint
`getUnicodeForGlyph(name, glyphsUnicodeMap)` (only when that codepoint is
not `-1`), and that key maps to exactly that codepoint; it never returns a
name that is absent from the map and different from its input. -/
theorem recoverGlyphName_sound (getUni : String → List (String × Int) → Int)
    (m : List (String × Int)) (name : String)
    (hnd : (m.map Prod.fst).Nodup) :
    (recoverGlyphName getUni name m = name ∨
      (getUni name m ≠ -1 ∧
        firstKeyWithValue m (getUni name m) = some (recoverGlyphName getUni name m) ∧
        lookupAL m (recoverGlyphName getUni name m) = some (getUni name m))) ∧
    (recoverGlyphName getUni name m ≠ name →
      (lookupAL m (recoverGlyphName getUni name m)).isSome = true) := by
  have hkey : ∀ u k, firstKeyWithValue m u = some k → lookupAL m k = some u := by
    intro u k hk
    have hmem : (k, u) ∈ m := by
      clear hnd
      induction m with
      | nil => cases hk
      | cons p t ih =>
        rcases p with ⟨pk, pv⟩
        rw [firstKeyWithValue] at hk
        by_cases hp : pv = u
        · rw [if_pos hp] at hk
          cases hk
          subst hp
          exact List.mem_cons_self _ _
        · rw [if_neg hp] at hk
          exact List.mem_cons_of_mem _ (ih hk)
    clear hk
    induction m with
    | nil => cases hmem
    | cons p t ih =>
      rw [List.map_cons, List.nodup_cons] at hnd
      rw [lookupAL]
      rcases List.mem_cons.mp hmem with h | h
      · rw [if_pos (congrArg Prod.fst h.symm)]
        rw [← h]
      · have hne : p.1 ≠ k := by
          intro he
          exact hnd.1 (he ▸ List.mem_map_of_mem Prod.fst h)
        rw [if_neg hne]
        exact ih hnd.2 h
  by_cases h1 : (lookupAL m name).isSome
  · have hr : recoverGlyphName getUni name m = name := by
      rw [recoverGlyphName, if_pos h1]
    rw [hr]
    exact ⟨Or.inl rfl, fun h => absurd rfl h⟩
  · by_cases h2 : getUni name m ≠ -1
    · cases h3 : firstKeyWithValue m (getUni name m) with
      | none =>
        have hr : recoverGlyphName getUni name m = name := by
          rw [recoverGlyphName, if_neg h1, if_pos h2, h3, Option.getD_none]
        rw [hr]
        exact ⟨Or.inl rfl, fun h => absurd rfl h⟩
      | some k =>
        have hr : recoverGlyphName getUni name m = k := by
          rw [recoverGlyphName, if_neg h1, if_pos h2, h3, Option.getD_some]
        rw [hr]
        have hl := hkey _ _ h3
        exact ⟨Or.inr ⟨h2, rfl, hl⟩, fun _ => by rw [hl]; rfl⟩
    · have hr : recoverGlyphName getUni name m = name := by
        rw [recoverGlyphName, if_neg h1, if_neg h2]
      rw [hr]
      exact ⟨Or.inl rfl, fun h => absurd rfl h⟩

/-- Witness for C10 at a concrete map and a name absent from it. -/
theorem recoverGlyphName_sound_witness :
    (recoverGlyphName (fun _ _ => -1) "b" [("a", 5)] = "b" ∨
      ((fun (_ : String) (_ : List (String × Int)) => (-1 : Int)) "b" [("a", 5)] ≠ -1 ∧
        firstKeyWithValue [("a", 5)]
          ((fun (_ : String) (_ : List (String × Int)) => (-1 : Int)) "b" [("a", 5)]) =
          some (recoverGlyphName (fun _ _ => -1) "b" [("a", 5)]) ∧
        lookupAL [("a", 5)] (recoverGlyphName (fun _ _ => -1) "b" [("a", 5)]) =
          some ((fun (_ : String) (_ : List (String × Int)) => (-1 : Int)) "b" [("a", 5)]))) ∧
    (recoverGlyphName (fun _ _ => -1) "b" [("a", 5)] ≠ "b" →
      (lookupAL [("a", 5)] (recoverGlyphName (fun _ _ => -1) "b" [("a", 5)])).isSome = true) :=
  recoverGlyphName_sound (fun _ _ => -1) [("a", 5)] "b" (by decide)

/-- C2 (confirmed): for every char code present in `differences`, the final
map value is the id derived from the difference entry (`indexOf`, retried
with `recoverGlyphName`'s result on a miss, `0` if still unresolved),
regardless of the branch taken and of whatever the base pass produced for
that code: the difference write always wins. -/
theorem type1FontGlyphMapping_differences_win
    (getEnc : String → List String) (stdEnc : List String)
    (gUni : List (String × Int)) (getUni : String → List (String × Int) → Int)
    (properties : FontProps) (builtInEncoding : List (Option JVal))
    (glyphNames : List String) (c : Nat) (n : String)
    (hnd : (properties.differences.map Prod.fst).Nodup)
    (hm : (c, n) ∈ properties.differences) :
    type1FontGlyphMapping getEnc stdEnc gUni getUni properties builtInEncoding glyphNames c =
      some (.num (diffGlyphId glyphNames gUni getUni n)) := by
  unfold type1FontGlyphMapping applyDifferences
  rw [foldPairs_mapSet_apply]
  rw [find?_key_eq_of_nodup_mem _ c n
    (by rw [List.map_reverse]; exact List.nodup_reverse.mpr hnd)
    (List.mem_reverse.mpr hm)]

theorem applyDifferences_not_mem (glyphNames : List String) (gUni : List (String × Int))
    (getUni : String → List (String × Int) → Int) (diffs : List (Nat × String))
    (m : CharMap) (c : Nat) (hc : ∀ n, (c, n) ∉ diffs) :
    applyDifferences glyphNames gUni getUni diffs m c = m c := by
  unfold applyDifferences
  rw [foldPairs_mapSet_apply,
    find?_key_eq_none_of_not_mem _ _ (fun n h => hc n (List.mem_reverse.mp h))]

theorem baseInternalPass_apply (glyphNames : List String) (bie : List (Option JVal))
    (c : Nat) :
    baseInternalPass glyphNames bie mapEmpty c = internalBaseVal bie glyphNames c := by
  unfold baseInternalPass internalBaseVal
  rw [foldRange_mapSet_apply]
  rfl

theorem baseNamesPass_apply (glyphNames table : List String) (c : Nat) :
    baseNamesPass glyphNames table mapEmpty c = namedBaseVal glyphNames table c := by
  unfold baseNamesPass namedBaseVal
  rw [foldRange_mapSet_apply]
  rfl

theorem baseSymbolicPass_apply (bie : List (Option JVal)) (c : Nat) :
    baseSymbolicPass bie mapEmpty c = symbolicBaseVal bie c := by
  unfold baseSymbolicPass symbolicBaseVal
  rw [foldRange_optSet_apply]
  by_cases h1 : c < bie.length
  · cases hg : bie.getD c none with
    | none => simp [h1, hg, mapEmpty]
    | some v => simp [h1, hg]
  · have hd : bie[c]? = none := List.getElem?_eq_none (by omega)
    simp [h1, mapEmpty, List.getD_eq_getElem?_getD, hd]

/-- Witness for C2: a symbolic font whose base pass maps char code 3 to
glyph id 7, overridden by a difference entry resolving to id 1. -/
theorem type1FontGlyphMapping_differences_win_witness :
    type1FontGlyphMapping (fun _ => []) [] [] (fun _ _ => -1)
        { flags := 4, isInternalFont := false, baseEncodingName := none,
          differences := [(3, "b")] }
        [some (JVal.num 7), some (JVal.num 7), some (JVal.num 7), some (JVal.num 7)]
        ["a", "b"] 3 =
      some (.num (diffGlyphId ["a", "b"] [] (fun _ _ => -1) "b")) :=
  type1FontGlyphMapping_differences_win (fun _ => []) [] [] (fun _ _ => -1)
    { flags := 4, isInternalFont := false, baseEncodingName := none, differences := [(3, "b")] }
    [some (JVal.num 7), some (JVal.num 7), some (JVal.num 7), some (JVal.num 7)]
    ["a", "b"] 3 "b" (by decide) (by decide)

/-- C3 (confirmed): outside of `differences` overrides, the base table is
selected by a mutually exclusive precedence chain — internal font first
(built-in encoding translated through `glyphNames`, miss giving id 0), else
a present base encoding name (the fetched named table translated the same
way), else the Symbolic flag (built-in encoding entries copied through
unchanged, with no name translation), else the default standard encoding
translated by name. -/
theorem type1FontGlyphMapping_branch (getEnc : String → List String) (stdEnc : List String)
    (gUni : List (String × Int)) (getUni : String → List (String × Int) → Int)
    (properties : FontProps) (builtInEncoding : List (Option JVal))
    (glyphNames : List String) (c : Nat)
    (hc : ∀ n, (c, n) ∉ properties.differences) :
    type1FontGlyphMapping getEnc stdEnc gUni getUni properties builtInEncoding glyphNames c =
      if properties.isInternalFont then internalBaseVal builtInEncoding glyphNames c
      else if strTruthy properties.baseEncodingName then
        namedBaseVal glyphNames (getEnc (properties.baseEncodingName.getD "")) c
      else if properties.flags &&& FontFlagsSymbolic ≠ 0 then
        symbolicBaseVal builtInEncoding c
      else namedBaseVal glyphNames stdEnc c := by
  rw [type1FontGlyphMapping, applyDifferences_not_mem _ _ _ _ _ _ hc]
  split_ifs
  · exact baseInternalPass_apply glyphNames builtInEncoding c
  · exact baseNamesPass_apply glyphNames _ c
  · exact baseSymbolicPass_apply builtInEncoding c
  · exact baseNamesPass_apply glyphNames stdEnc c

/-- Witness for C3 at a symbolic font with no differences: the built-in
encoding entry is copied through. -/
theorem type1FontGlyphMapping_branch_witness :
    type1FontGlyphMapping (fun _ => []) [] [] (fun _ _ => -1)
        ⟨4, false, none, []⟩ [some (JVal.num 9)] [] 0 =
      symbolicBaseVal [some (JVal.num 9)] 0 := by
  rw [type1FontGlyphMapping_branch (fun _ => []) [] [] (fun _ _ => -1)
    ⟨4, false, none, []⟩ [some (JVal.num 9)] [] 0 (by simp)]
  decide

/-- C1 (corrected): the claim as stated is false — in the symbolic-font
branch, `builtInEncoding` entries are copied through unchecked, so the
returned glyph ids need not lie in `[0, len(glyphNames))` (see
`type1FontGlyphMapping_gid_range_cex`).  Amended: when `glyphNames` is
nonempty, every entry that was produced by name translation — any entry at
all when the branch taken is internal-font, named-base-encoding, or
standard-encoding, and every `differences`-overridden entry in all branches
— is a numeric glyph id in `[0, len(glyphNames))`. -/
theorem type1FontGlyphMapping_gid_range (getEnc : String → List String) (stdEnc : List String)
    (gUni : List (String × Int)) (getUni : String → List (String × Int) → Int)
    (properties : FontProps) (builtInEncoding : List (Option JVal))
    (glyphNames : List String) (c : Nat) (v : JVal)
    (hne : glyphNames ≠ [])
    (hbranch : properties.isInternalFont = true ∨
      strTruthy properties.baseEncodingName = true ∨
      properties.flags &&& FontFlagsSymbolic = 0 ∨ ∃ n, (c, n) ∈ properties.differences)
    (hv : type1FontGlyphMapping getEnc stdEnc gUni getUni properties builtInEncoding
        glyphNames c = some v) :
    ∃ g, v = JVal.num g ∧ g < glyphNames.length := by
  have hlen : 0 < glyphNames.length := List.length_pos.mpr hne
  rw [type1FontGlyphMapping, applyDifferences, foldPairs_mapSet_apply] at hv
  cases hfind : properties.differences.reverse.find? (fun cn => cn.1 == c) with
  | some cn =>
    rw [hfind] at hv
    simp only [Option.some.injEq] at hv
    exact ⟨_, hv.symm, diffGlyphId_lt glyphNames gUni getUni cn.2 hlen⟩
  | none =>
    rw [hfind] at hv
    by_cases h1 : properties.isInternalFont
    · rw [if_pos h1, baseInternalPass_apply] at hv
      unfold internalBaseVal at hv
      by_cases h2 : c < builtInEncoding.length
      · rw [if_pos h2] at hv
        simp only [Option.some.injEq] at hv
        exact ⟨_, hv.symm, toGid_lt _ _ hlen (jsIndexOfVal_spec glyphNames _)⟩
      · rw [if_neg h2] at hv; cases hv
    · rw [if_neg h1] at hv
      by_cases h2 : strTruthy properties.baseEncodingName
      · rw [if_pos h2, baseNamesPass_apply] at hv
        unfold namedBaseVal at hv
        by_cases h3 : c < (getEnc (properties.baseEncodingName.getD "")).length
        · rw [if_pos h3] at hv
          simp only [Option.some.injEq] at hv
          exact ⟨_, hv.symm, toGid_lt _ _ hlen (jsIndexOf_spec glyphNames _)⟩
        · rw [if_neg h3] at hv; cases hv
      · rw [if_neg h2] at hv
        by_cases h3 : properties.flags &&& FontFlagsSymbolic ≠ 0
        · exfalso
          rcases hbranch with hb | hb | hb | ⟨n, hb⟩
          · exact h1 (by simp [hb])
          · exact h2 hb
          · exact h3 hb
          · have := List.find?_eq_none.mp hfind (c, n) (List.mem_reverse.mpr hb)
            simp at this
        · rw [if_neg h3, baseNamesPass_apply] at hv
          unfold namedBaseVal at hv
          by_cases h4 : c < stdEnc.length
          · rw [if_pos h4] at hv
            simp only [Option.some.injEq] at hv
            exact ⟨_, hv.symm, toGid_lt _ _ hlen (jsIndexOf_spec glyphNames _)⟩
          · rw [if_neg h4] at hv; cases hv

/-- Counterexample for C1 as stated: a symbolic font copies the glyph id
`999` from `builtInEncoding` into the map although `glyphNames` has length
1, so the mapped id is not in `[0, len(glyphNames))`. -/
theorem type1FontGlyphMapping_gid_range_cex :
    type1FontGlyphMapping (fun _ => []) [] [] (fun _ _ => -1)
        { flags := 4, isInternalFont := false, baseEncodingName := none, differences := [] }
        [some (JVal.num 999)] ["a"] 0 = some (JVal.num 999) ∧
      ¬(999 < (["a"] : List String).length) := by
  constructor
  · rfl
  · decide

/-- Witness for the amended C1 at an internal font with one glyph name. -/
theorem type1FontGlyphMapping_gid_range_witness :
    ∃ g, JVal.num 0 = JVal.num g ∧ g < (["a"] : List String).length :=
  type1FontGlyphMapping_gid_range (fun _ => []) [] [] (fun _ _ => -1)
    { flags := 0, isInternalFont := true, baseEncodingName := none, differences := [] }
    [some (JVal.str "a")] ["a"] 0 (JVal.num 0) (by decide) (Or.inl rfl) (by rfl)

/-- C8 (corrected): the claim as stated is false — commas and underscores
are not stripped but replaced by hyphens (see `normalizeFontName_strip_cex`).
Amended: `normalizeFontName` maps every comma and underscore to a hyphen and
deletes every whitespace character, character by character, with no other
change. -/
theorem normalizeFontName_charwise (name : String) :
    normalizeFontName name =
      (name.toList.filterMap (fun ch =>
        if isJsWhitespace ch then none
        else some (if ch = ',' ∨ ch = '_' then '-' else ch))).asString := by
  unfold normalizeFontName
  congr 1
  induction name.toList with
  | nil => rfl
  | cons a t ih =>
    simp only [List.map_cons, List.filter_cons, List.filterMap_cons]
    by_cases hc : a = ',' ∨ a = '_'
    · have hw : isJsWhitespace a = false := by
        rcases hc with rfl | rfl <;> decide
      have hd : (!isJsWhitespace '-') = true := by decide
      rw [if_pos hc]
      simp [hw, hd, ih]
    · rw [if_neg hc]
      by_cases hw : isJsWhitespace a
      · simp [hw, ih]
      · simp [hw, ih]

/-- Counterexample for C8 as stated: on `"a,b"` the source yields `"a-b"`,
not the stripped `"ab"`. -/
theorem normalizeFontName_strip_cex : normalizeFontName "a,b" ≠ stripSpecC8 "a,b" := by
  decide

/-! ## Helper lemmas: the bitmap unpacker -/

theorem bufSet_apply (b : Buf) (k v q : Nat) :
    bufSet b k v q = if q = k then v else b q := rfl

theorem unpackByte_snd (elem pos : Nat) (data : Buf) :
    (unpackByte elem pos data).2 = pos + 8 := rfl

theorem unpackByte_fst_apply (elem pos : Nat) (data : Buf) (q : Nat) :
    (unpackByte elem pos data).1 q =
      if pos ≤ q ∧ q < pos + 8 then
        (if elem &&& (128 >>> (q - pos)) ≠ 0 then 0 else 255)
      else data q := by
  unfold unpackByte unpackWrite
  simp only [bufSet_apply]
  by_cases h7 : q = pos + 7
  · subst h7; simp [Nat.add_sub_cancel_left]
  rw [if_neg h7]
  by_cases h6 : q = pos + 6
  · subst h6; simp [Nat.add_sub_cancel_left]
  rw [if_neg h6]
  by_cases h5 : q = pos + 5
  · subst h5; simp [Nat.add_sub_cancel_left]
  rw [if_neg h5]
  by_cases h4 : q = pos + 4
  · subst h4; simp [Nat.add_sub_cancel_left]
  rw [if_neg h4]
  by_cases h3 : q = pos + 3
  · subst h3; simp [Nat.add_sub_cancel_left]
  rw [if_neg h3]
  by_cases h2 : q = pos + 2
  · subst h2; simp [Nat.add_sub_cancel_left]
  rw [if_neg h2]
  by_cases h1 : q = pos + 1
  · subst h1; simp [Nat.add_sub_cancel_left]
  rw [if_neg h1]
  by_cases h0 : q = pos
  · subst h0; simp
  rw [if_neg h0, if_neg (by omega)]

theorem unpack_foldl_spec (img : List Nat) : ∀ (data : Buf) (pos : Nat),
    ((img.foldl (fun dp elem => unpackByte elem dp.2 dp.1) (data, pos)).2 =
      pos + 8 * img.length) ∧
    (∀ q, (img.foldl (fun dp elem => unpackByte elem dp.2 dp.1) (data, pos)).1 q =
      if pos ≤ q ∧ q < pos + 8 * img.length then
        (if img.getD ((q - pos) / 8) 0 &&& (128 >>> ((q - pos) % 8)) ≠ 0 then 0 else 255)
      else data q) := by
  induction img with
  | nil =>
    intro data pos
    refine ⟨by simp, fun q => ?_⟩
    simp only [List.foldl_nil, List.length_nil, Nat.mul_zero, Nat.add_zero]
    rw [if_neg (by omega)]
  | cons a t ih =>
    intro data pos
    simp only [List.foldl_cons]
    have hpair : unpackByte a pos data = ((unpackByte a pos data).1, pos + 8) := by
      rw [← unpackByte_snd a pos data]
    rw [hpair]
    obtain ⟨ihs, ihv⟩ := ih (unpackByte a pos data).1 (pos + 8)
    refine ⟨by rw [ihs]; simp only [List.length_cons]; omega, fun q => ?_⟩
    rw [ihv q]
    by_cases hA : pos ≤ q ∧ q < pos + 8
    · have hn : ¬(pos + 8 ≤ q ∧ q < pos + 8 + 8 * t.length) := by omega
      have hcond : pos ≤ q ∧ q < pos + 8 * (a :: t).length := by
        simp only [List.length_cons]; omega
      rw [if_neg hn, unpackByte_fst_apply, if_pos hA, if_pos hcond]
      have hd : (q - pos) / 8 = 0 := Nat.div_eq_of_lt (by omega)
      have hm : (q - pos) % 8 = q - pos := Nat.mod_eq_of_lt (by omega)
      rw [hd, hm, List.getD_cons_zero]
    · by_cases hB : pos + 8 ≤ q ∧ q < pos + 8 + 8 * t.length
      · have hcond : pos ≤ q ∧ q < pos + 8 * (a :: t).length := by
          simp only [List.length_cons]; omega
        rw [if_pos hB, if_pos hcond]
        obtain ⟨k, rfl⟩ : ∃ k, q = pos + 8 + k := ⟨q - (pos + 8), by omega⟩
        have e1 : pos + 8 + k - (pos + 8) = k := by omega
        have e2 : pos + 8 + k - pos = k + 8 := by omega
        rw [e1, e2, Nat.add_div_right k (by norm_num), Nat.add_mod_right,
          List.getD_cons_succ]
      · have hcond : ¬(pos ≤ q ∧ q < pos + 8 * (a :: t).length) := by
          simp only [List.length_cons]; omega
        rw [if_neg hB, if_neg hcond, unpackByte_fst_apply, if_neg hA]

/-- C4 (corrected): the claim as stated is false — the unpacker inverts the
mask: a set source bit produces byte `0` and a clear bit produces byte `255`
(see `unpack_bit_polarity_cex`; in the PDF image-mask convention a sample of
1 masks the pixel out).  Amended: the unpacking step expands each row into
one byte per pixel, producing `0` for a pixel whose source bit is set and
`255` for a clear bit, respecting the per-row byte padding. -/
theorem unpack_pixel (img : List Nat) (width height i j : Nat)
    (hlen : img.length = (width + 7) / 8 * height) (hi : i < height) (hj : j < width) :
    unpack img (i * lineSize width + j) =
      if img.getD (i * ((width + 7) / 8) + j / 8) 0 &&& (128 >>> (j % 8)) ≠ 0 then 0
      else 255 := by
  have h := (unpack_foldl_spec img bufZero 0).2 (i * lineSize width + j)
  unfold unpack
  rw [h]
  have hls : lineSize width = (width + 7) / 8 * 8 := rfl
  have hwle : width ≤ (width + 7) / 8 * 8 := by omega
  have hq : i * lineSize width + j = j + (i * ((width + 7) / 8)) * 8 := by
    rw [hls]; ring
  have hlt : j + (i * ((width + 7) / 8)) * 8 < 8 * img.length := by
    rw [hlen]
    have h1 : i * ((width + 7) / 8) * 8 + (width + 7) / 8 * 8 = (i + 1) * ((width + 7) / 8) * 8 := by
      ring
    have h2 : (i + 1) * ((width + 7) / 8) ≤ height * ((width + 7) / 8) :=
      Nat.mul_le_mul_right _ hi
    have h3 : height * ((width + 7) / 8) * 8 = 8 * ((width + 7) / 8 * height) := by ring
    omega
  rw [hq, if_pos (by omega)]
  have e1 : j + i * ((width + 7) / 8) * 8 - 0 = j + i * ((width + 7) / 8) * 8 := by omega
  rw [e1, Nat.add_mul_div_right _ _ (by norm_num : (0:Nat) < 8),
    Nat.add_mul_mod_self_right, Nat.add_comm (j / 8)]

/-- Counterexample for C4 as stated: for the single byte `0x80` (one set
bit), the unpacked byte is `0`, while the claim (1 = ink ↦ 255) predicts
`255`. -/
theorem unpack_bit_polarity_cex :
    unpack [128] 0 = 0 ∧ unpackSpecC4 [128] 0 = 255 := by
  exact ⟨rfl, rfl⟩

/-- Witness for the amended C4 at the 1×1 bitmap `[0x80]`. -/
theorem unpack_pixel_witness :
    unpack [128] (0 * lineSize 1 + 0) =
      if [128].getD (0 * ((1 + 7) / 8) + 0 / 8) 0 &&& (128 >>> (0 % 8)) ≠ 0 then 0
      else 255 :=
  unpack_pixel [128] 1 1 0 0 (by decide) (by decide) (by decide)

/-! ## Helper lemmas: classification count and the null gates -/

theorem setPt_count (s : ClsState) (j v : Nat) : (setPt s j v).count = s.count + 1 := rfl

theorem count_le_ite_setPt (s : ClsState) (c : Prop) [Decidable c] (j v : Nat) :
    s.count ≤ (if c then setPt s j v else s).count := by
  split_ifs
  · rw [setPt_count]; omega
  · omega

theorem foldl_cls_count_le {β : Type} (f : ClsState → β → ClsState)
    (hf : ∀ s x, s.count ≤ (f s x).count) (l : List β) : ∀ s : ClsState,
    s.count ≤ (l.foldl f s).count := by
  induction l with
  | nil => intro s; simp
  | cons a t ih => intro s; exact le_trans (hf s a) (ih (f s a))

theorem foldl_pair_count_le {β γ : Type} (f : ClsState × γ → β → ClsState × γ)
    (hf : ∀ s x, s.1.count ≤ (f s x).1.count) (l : List β) : ∀ s : ClsState × γ,
    s.1.count ≤ (l.foldl f s).1.count := by
  induction l with
  | nil => intro s; simp
  | cons a t ih => intro s; exact le_trans (hf s a) (ih (f s a))

theorem middleRowPass_count_le (data : Buf) (width w1 ls i : Nat) (s : ClsState) :
    s.count ≤ (middleRowPass data width w1 ls i s).count := by
  unfold middleRowPass
  exact le_trans (count_le_ite_setPt s _ _ _)
    (le_trans (foldl_pair_count_le _ (fun ss x => count_le_ite_setPt ss.1 _ _ _) _ _)
      (count_le_ite_setPt _ _ _ _))

theorem bottomRowPass_count_le (data : Buf) (width w1 ls height : Nat) (s : ClsState) :
    s.count ≤ (bottomRowPass data width w1 ls height s).count := by
  unfold bottomRowPass
  exact le_trans (count_le_ite_setPt s _ _ _)
    (le_trans (foldl_cls_count_le _ (fun ss x => count_le_ite_setPt ss _ _ _) _ _)
      (count_le_ite_setPt _ _ _ _))

theorem middleFold_count_le (data : Buf) (width w1 ls : Nat) (l : List Nat) (s : ClsState) :
    s.count ≤ (l.foldl (fun s i => middleRowPass data width w1 ls i s) s).count :=
  foldl_cls_count_le _ (fun s i => middleRowPass_count_le data width w1 ls i s) l s

theorem checkedFold_none (data : Buf) (width w1 ls : Nat) (l : List Nat) :
    l.foldl
      (fun os i =>
        os.bind (fun s =>
          if (middleRowPass data width w1 ls i s).count > pointLimit then none
          else some (middleRowPass data width w1 ls i s)))
      none = none := by
  induction l with
  | nil => rfl
  | cons a t ih => simpa using ih

theorem checkedFold_spec (data : Buf) (width w1 ls : Nat) (l : List Nat) : ∀ s : ClsState,
    (l.foldl
        (fun os i =>
          os.bind (fun s =>
            if (middleRowPass data width w1 ls i s).count > pointLimit then none
            else some (middleRowPass data width w1 ls i s)))
        (some s)) =
      some (l.foldl (fun s i => middleRowPass data width w1 ls i s) s) ∨
    ((l.foldl
        (fun os i =>
          os.bind (fun s =>
            if (middleRowPass data width w1 ls i s).count > pointLimit then none
            else some (middleRowPass data width w1 ls i s)))
        (some s)) = none ∧
      (l.foldl (fun s i => middleRowPass data width w1 ls i s) s).count > pointLimit) := by
  induction l with
  | nil => intro s; exact Or.inl rfl
  | cons a t ih =>
    intro s
    simp only [List.foldl_cons, Option.some_bind]
    by_cases hgt : (middleRowPass data width w1 ls a s).count > pointLimit
    · rw [if_pos hgt, checkedFold_none]
      exact Or.inr ⟨rfl, lt_of_lt_of_le hgt (middleFold_count_le data width w1 ls t _)⟩
    · rw [if_neg hgt]
      exact ih (middleRowPass data width w1 ls a s)

theorem classifyChecked_none_iff (data : Buf) (width w1 ls height : Nat) :
    classifyChecked data width w1 ls height = none ↔
      (classifyTotal data width w1 ls height).count > pointLimit := by
  unfold classifyChecked classifyTotal
  rcases checkedFold_spec data width w1 ls (List.range' 1 (height - 1))
      (topRowPass data width) with h | ⟨hn, hgt⟩
  · rw [h, Option.some_bind]
    by_cases hb : (bottomRowPass data width w1 ls height
        ((List.range' 1 (height - 1)).foldl (fun s i => middleRowPass data width w1 ls i s)
          (topRowPass data width))).count > pointLimit
    · simp [hb]
    · simp [hb]
  · rw [hn, Option.none_bind]
    exact iff_of_true rfl
      (lt_of_lt_of_le hgt (bottomRowPass_count_le data width w1 ls height _))

/-- C5 (confirmed): for a structurally well-formed bitmap glyph,
`compileType3Glyph` returns `null` exactly when `width > 1000`, or
`height > 1000`, or the running count of classified boundary corner points
exceeds 1000 (the early per-row checks fire exactly when the total
classification count does, since the count never decreases during
classification); every `null` is returned before the tracing phase, so it is
never accompanied by a partial outline, and the dimension gate is checked
before the pixel data is even unpacked. -/
theorem compileType3Glyph_null_iff (fuel : Nat) (img : List Nat) (width height : Nat)
    (_hw : 1 ≤ width) (_hh : 1 ≤ height)
    (_hlen : img.length = (width + 7) / 8 * height) :
    compileType3Glyph fuel img width height = some none ↔
      width > maxSizeToCompile ∨ height > maxSizeToCompile ∨
        (classifyTotal (unpack img) width (width + 1) (lineSize width) height).count >
          pointLimit := by
  unfold compileType3Glyph
  by_cases hgate : width > maxSizeToCompile ∨ height > maxSizeToCompile
  · rw [if_pos hgate]
    exact iff_of_true rfl (by tauto)
  · rw [if_neg hgate]
    cases hcls : classifyChecked (unpack img) width (width + 1) (lineSize width) height with
    | none =>
      have hc := (classifyChecked_none_iff (unpack img) width (width + 1)
        (lineSize width) height).mp hcls
      exact iff_of_true (by simp [hcls]) (Or.inr (Or.inr hc))
    | some s =>
      have hc : ¬(classifyTotal (unpack img) width (width + 1)
          (lineSize width) height).count > pointLimit := by
        intro h
        rw [(classifyChecked_none_iff (unpack img) width (width + 1)
          (lineSize width) height).mpr h] at hcls
        cases hcls
      simp only [hcls]
      refine iff_of_false ?_ (by tauto)
      cases houter : outerLoop (width + 1) ((width + 1) * (height + 1)) width height
          (glyphMatrix width height) fuel s.pts s.count 0 with
      | none => simp [houter]
      | some cmds => simp [houter]

/-- Witness for C5 at the all-ink 1×1 bitmap, where no gate fires. -/
theorem compileType3Glyph_null_iff_witness :
    compileType3Glyph 5 [0] 1 1 = some none ↔
      1 > maxSizeToCompile ∨ 1 > maxSizeToCompile ∨
        (classifyTotal (unpack [0]) 1 (1 + 1) (lineSize 1) 1).count > pointLimit :=
  compileType3Glyph_null_iff 5 [0] 1 1 (by decide) (by decide) (by decide)

/-! ## Helper lemmas: contour closedness -/

theorem walk_getLast (w1 size : Nat) (M : MatrixQ) (p0 : Nat) : ∀ (fuel : Nat) (pts : Buf)
    (count : Int) (type : Nat) (p : Int) (ptsF : Buf) (countF : Int) (vs : List (ℚ × ℚ)),
    walk w1 size M p0 fuel pts count type p = some (ptsF, countF, vs) →
    vs ≠ [] ∧ vs.getLast? = some (coordOf M w1 p0) := by
  intro fuel
  induction fuel with
  | zero => intro pts count type p ptsF countF vs h; cases h
  | succ fuel ih =>
    intro pts count type p ptsF countF vs h
    rw [walk] at h
    cases hstep : stepOf w1 type with
    | none => rw [hstep] at h; cases h
    | some step =>
      simp only [hstep] at h
      cases hfind : findNext pts size (size + 2) p step with
      | none => rw [hfind] at h; cases h
      | some q =>
        simp only [hfind] at h
        by_cases hq : q.toNat = p0
        · rw [if_pos hq] at h
          injection h with h1
          injection h1 with h2 h3
          injection h3 with h4 h5
          subst h5
          subst hq
          exact ⟨by simp, by simp⟩
        · rw [if_neg hq] at h
          cases hrec : walk w1 size M p0 fuel
              (bufSet pts q.toNat (crossTypes (readPts pts size q) type).2)
              (if (crossTypes (readPts pts size q) type).2 = 0 then count - 1 else count)
              (crossTypes (readPts pts size q) type).1 q with
          | none => rw [hrec] at h; cases h
          | some r =>
            obtain ⟨ptsR, countR, vsR⟩ := r
            simp only [hrec] at h
            injection h with h1
            injection h1 with h2 h3
            injection h3 with h4 h5
            obtain ⟨hne, hlast⟩ := ih _ _ _ _ _ _ _ hrec
            subst h5
            refine ⟨by simp, ?_⟩
            obtain ⟨v0, vsR', rfl⟩ : ∃ v0 vsR', vsR = v0 :: vsR' := by
              cases vsR with
              | nil => exact absurd rfl hne
              | cons a t => exact ⟨a, t, rfl⟩
            rw [List.getLast?_cons_cons]
            exact hlast

theorem outerLoop_closed (w1 size width height : Nat) (M : MatrixQ) : ∀ (fuel : Nat)
    (pts : Buf) (count : Int) (i : Nat) (cmds : List Cmd),
    outerLoop w1 size width height M fuel pts count i = some cmds →
    ClosedContours cmds := by
  intro fuel
  induction fuel with
  | zero => intro pts count i cmds h; cases h
  | succ fuel ih =>
    intro pts count i cmds h
    rw [outerLoop] at h
    by_cases hdone : count = 0 ∨ i > height
    · rw [if_pos hdone] at h
      injection h with h1
      subst h1
      exact ClosedContours.nil
    · rw [if_neg hdone] at h
      cases hscan : scanRow pts (i * w1) width with
      | none =>
        simp only [hscan] at h
        exact ih _ _ _ _ h
      | some p =>
        simp only [hscan] at h
        cases hwalk : walk w1 size M p (fuel + 1) pts count (pts p) (p : Int) with
        | none => rw [hwalk] at h; cases h
        | some r =>
          obtain ⟨pts2, count2, vs⟩ := r
          simp only [hwalk] at h
          cases hrest : outerLoop w1 size width height M fuel pts2 count2 i with
          | none => rw [hrest] at h; cases h
          | some rest =>
            simp only [hrest] at h
            injection h with h1
            subst h1
            obtain ⟨hne, hlast⟩ := walk_getLast w1 size M p _ _ _ _ _ _ _ _ hwalk
            exact ClosedContours.contour (coordOf M w1 p).1 (coordOf M w1 p).2 vs rest
              hne (by rw [hlast]) (ih _ _ _ _ hrest)

/-- C6 (confirmed): every contour of a non-null `compileType3Glyph` result is
closed — the walk only stops when it returns to its own start point, so the
vertices of the final `lineTo` of each contour equal those of the contour's
initial `moveTo`. -/
theorem compileType3Glyph_contours_closed (fuel : Nat) (img : List Nat)
    (width height : Nat) (o : Outline)
    (h : compileType3Glyph fuel img width height = some (some o)) :
    ClosedContours o.path := by
  unfold compileType3Glyph at h
  by_cases hgate : width > maxSizeToCompile ∨ height > maxSizeToCompile
  · rw [if_pos hgate] at h
    cases h
  · rw [if_neg hgate] at h
    simp only at h
    cases hcls : classifyChecked (unpack img) width (width + 1) (lineSize width) height with
    | none => rw [hcls] at h; cases h
    | some s =>
      simp only [hcls] at h
      cases houter : outerLoop (width + 1) ((width + 1) * (height + 1)) width height
          (glyphMatrix width height) fuel s.pts s.count 0 with
      | none => rw [houter] at h; cases h
      | some cmds =>
        simp only [houter] at h
        injection h with h1
        injection h1 with h2
        have hpath : o.path = cmds := by rw [← h2]
        rw [hpath]
        exact outerLoop_closed (width + 1) ((width + 1) * (height + 1)) width height
          (glyphMatrix width height) fuel s.pts s.count 0 cmds houter

/-- Witness for C6 at the all-ink 1×1 bitmap (its compiled outline is the
closed unit square). -/
theorem compileType3Glyph_contours_closed_witness :
    ClosedContours (Outline.mk
      [Cmd.moveTo (coordOf (glyphMatrix 1 1) 2 0).1 (coordOf (glyphMatrix 1 1) 2 0).2,
        Cmd.lineTo (coordOf (glyphMatrix 1 1) 2 2).1 (coordOf (glyphMatrix 1 1) 2 2).2,
        Cmd.lineTo (coordOf (glyphMatrix 1 1) 2 3).1 (coordOf (glyphMatrix 1 1) 2 3).2,
        Cmd.lineTo (coordOf (glyphMatrix 1 1) 2 1).1 (coordOf (glyphMatrix 1 1) 2 1).2,
        Cmd.lineTo (coordOf (glyphMatrix 1 1) 2 0).1 (coordOf (glyphMatrix 1 1) 2 0).2]
      [0, 0, 1, 1]).path :=
  compileType3Glyph_contours_closed 100 [0] 1 1 _ rfl

/-- C7 (corrected): the claim as stated is false — a 1×1 bitmap with its one
source bit set compiles to an outline with an empty path, because the
unpacker maps a set bit to byte 0 and the tracer outlines the 255-cells
(see `compileType3Glyph_unitSquare_cex`).  Amended: on the 1×1 bitmap whose
single source bit is clear (the inked pixel under the code's polarity),
`compileType3Glyph` returns exactly one closed 4-point contour tracing the
boundary of the unit square, with coordinates given exactly by the affine
map `(x, y) ↦ (x / width, 1 - y / height)` of the grid corners. -/
theorem compileType3Glyph_unitSquare :
    compileType3Glyph 100 [0] 1 1 = some (some (Outline.mk
      [Cmd.moveTo 0 1, Cmd.lineTo 0 0, Cmd.lineTo 1 0, Cmd.lineTo 1 1, Cmd.lineTo 0 1]
      [0, 0, 1, 1])) := by
  have h0 : coordOf (glyphMatrix 1 1) 2 0 = (0, 1) := by
    norm_num [coordOf, glyphMatrix, MatrixQ.new, MatrixQ.scaleSelf, MatrixQ.translateSelf]
  have h1 : coordOf (glyphMatrix 1 1) 2 1 = (1, 1) := by
    norm_num [coordOf, glyphMatrix, MatrixQ.new, MatrixQ.scaleSelf, MatrixQ.translateSelf]
  have h2 : coordOf (glyphMatrix 1 1) 2 2 = (0, 0) := by
    norm_num [coordOf, glyphMatrix, MatrixQ.new, MatrixQ.scaleSelf, MatrixQ.translateSelf]
  have h3 : coordOf (glyphMatrix 1 1) 2 3 = (1, 0) := by
    norm_num [coordOf, glyphMatrix, MatrixQ.new, MatrixQ.scaleSelf, MatrixQ.translateSelf]
  calc compileType3Glyph 100 [0] 1 1
      = some (some (Outline.mk
          [Cmd.moveTo (coordOf (glyphMatrix 1 1) 2 0).1 (coordOf (glyphMatrix 1 1) 2 0).2,
            Cmd.lineTo (coordOf (glyphMatrix 1 1) 2 2).1 (coordOf (glyphMatrix 1 1) 2 2).2,
            Cmd.lineTo (coordOf (glyphMatrix 1 1) 2 3).1 (coordOf (glyphMatrix 1 1) 2 3).2,
            Cmd.lineTo (coordOf (glyphMatrix 1 1) 2 1).1 (coordOf (glyphMatrix 1 1) 2 1).2,
            Cmd.lineTo (coordOf (glyphMatrix 1 1) 2 0).1 (coordOf (glyphMatrix 1 1) 2 0).2]
          [0, 0, 1, 1])) := rfl
    _ = some (some (Outline.mk
          [Cmd.moveTo 0 1, Cmd.lineTo 0 0, Cmd.lineTo 1 0, Cmd.lineTo 1 1, Cmd.lineTo 0 1]
          [0, 0, 1, 1])) := by rw [h0, h1, h2, h3]

/-- Counterexample for C7 as stated: the 1×1 bitmap `[0x80]` (its single
source bit set) compiles to an outline with no path commands at all — not a
4-point contour. -/
theorem compileType3Glyph_unitSquare_cex :
    compileType3Glyph 100 [128] 1 1 = some (some (Outline.mk [] [0, 0, 1, 1])) ∧
      (Outline.mk ([] : List Cmd) [0, 0, 1, 1]).path.length = 0 := by
  exact ⟨by decide, rfl⟩

end FontsUtils
